import Mathlib

/-!
Verification development for the redgold repository.

This file gives a shallow embedding of the parts of the code that the
claims concern:

* the BidAsk / PriceVolume bonding-curve engine
  (`src/multiparty/watcher.rs`): `PriceVolume::generate`,
  `PriceVolume::normalize_volumes`, `BidAsk::generate`,
  `BidAsk::regenerate`, `BidAsk::fulfill_taker_order`;
* the peer request/response dispatcher
  (`src/core/peer_rx_event_handler.rs`): `request_response` and the
  response-producing part of `request_response_rest`;
* the broadcast fan-out (`src/core/relay.rs`): `Relay::broadcast`.

Modelling conventions:

* Rust `u64` values are modelled as `ℕ`; the saturating `as u64` cast of
  a float is modelled by `asU64` (truncation toward zero, negative
  values collapse to `0`, saturation at `U64_MAX`), and `.round() as
  u64` by `roundAsU64` (Rust's `f64::round` rounds half away from zero,
  which for nonnegative arguments coincides with Mathlib's `round`,
  i.e. `⌊x + 1/2⌋`).
* `f64` arithmetic is modelled as exact arithmetic on `ℚ`; decimal
  float literals (`0.9`, `3.0`, `0.0035`, ...) are modelled by the
  rational they denote.  `ℚ` has no NaN/infinity and no negative zero,
  so the source's `is_nan/is_infinite/is_sign_negative` price guard
  becomes a `price < 0` test, and the `x/0` special cases of floats are
  modelled explicitly where they can occur.
* The two quantities of `PriceVolume::generate` that the source obtains
  from transcendental float operations — the first term of the
  geometric series (`first_term`) and its common ratio
  (`(1.0/scale).powf(1.0/(divisions-1))`) — have no exact rational
  embedding, so the embedded `generate` takes them as parameters `ft`
  and `r` instead of `scale`; a theorem quantifying over all `ft r : ℚ`
  in particular covers the values the float computation produces.
-/

attribute [local semireducible] Rat.mul Rat.add Rat.sub Rat.inv

/-- Largest `u64` value, `2^64 - 1`. -/
def U64_MAX : ℕ := 18446744073709551615

/-- Executable floor of a rational (`Int.floor` does not reduce in the
kernel; this does, and `ratFloor_eq` identifies the two). -/
def ratFloor (q : ℚ) : ℤ := q.num / (q.den : ℤ)

theorem ratFloor_eq (q : ℚ) : ratFloor q = ⌊q⌋ := (Rat.floor_def).symm

/-- Executable round-half-up of a rational, `⌊q + 1/2⌋`. -/
def ratRound (q : ℚ) : ℤ := ratFloor (q + 1 / 2)

theorem ratRound_eq (q : ℚ) : ratRound q = round q := by
  rw [ratRound, ratFloor_eq, round_eq]

/-- Rust's saturating `as u64` cast applied to an (exactly represented)
float value: truncation toward zero, with negative values mapped to `0`
and values above `U64_MAX` mapped to `U64_MAX`. -/
def asU64 (q : ℚ) : ℕ := min (ratFloor q).toNat U64_MAX

/-- Rust's `x.round() as u64` for a float `x`: round half away from
zero (for nonnegative `x` this is Mathlib's `round`, `⌊x + 1/2⌋`), then
the saturating cast. -/
def roundAsU64 (q : ℚ) : ℕ := min (ratRound q).toNat U64_MAX

/-- `pub const DUST_LIMIT: u64 = 2500;` (watcher.rs line 96). -/
def DUST_LIMIT : ℕ := 2500

/-- `struct PriceVolume { price: f64, volume: u64 }` (watcher.rs). -/
structure PriceVolume where
  price : ℚ
  volume : ℕ
deriving DecidableEq

/-- `price_volumes.iter().map(|pv| pv.volume).sum()`. -/
def sumVolume (l : List PriceVolume) : ℕ := (l.map PriceVolume.volume).sum

/-- The raw ladder built by the first loop of `PriceVolume::generate`:
for `i in 0..divisions`, price `center_price + (i+1)*(price_width /
divisions)` (entries with an invalid — in `ℚ`: negative — price are
skipped) and volume `(first_term * ratio.powi(divisions - i)) as u64`,
with the float-derived `first_term`/`ratio` as parameters `ft`/`r`. -/
def rawEntries (center_price : ℚ) (divisions : ℕ) (price_width : ℚ)
    (ft r : ℚ) : List PriceVolume :=
  (List.range divisions).filterMap (fun i =>
    let price := center_price + (i + 1 : ℕ) * (price_width / (divisions : ℚ))
    if price < 0 then none
    else some ⟨price, asU64 (ft * r ^ (divisions - i))⟩)

/-- The first (proportional-rescale) pass of
`PriceVolume::normalize_volumes`: each volume becomes
`((pv.volume as f64 / current_total as f64) * available_volume as f64).round() as u64`.
When the current total is `0` the float computation yields NaN and the
cast yields `0`; `ℚ` division by zero also yields `0`, so the model
agrees. -/
def normalizeOnly (available_volume : ℕ) (l : List PriceVolume) : List PriceVolume :=
  l.map (fun pv =>
    { pv with volume :=
        roundAsU64 ((pv.volume : ℚ) / (sumVolume l : ℚ) * (available_volume : ℚ)) })

/-- The `dust_trigger` flag of `PriceVolume::normalize_volumes`: some
rescaled volume is below the dust limit. -/
def dustTriggered (available_volume : ℕ) (l : List PriceVolume) : Prop :=
  ∃ pv ∈ normalizeOnly available_volume l, pv.volume < DUST_LIMIT

instance (av : ℕ) (l : List PriceVolume) : Decidable (dustTriggered av l) := by
  unfold dustTriggered; infer_instance

/-- `PriceVolume::normalize_volumes` (watcher.rs lines 203-233):
rescale proportionally; if any rescaled volume is below the dust limit,
replace the ladder by its first `available_volume / DUST_LIMIT` entries
with every volume set to exactly the dust limit (prices preserved). -/
def PriceVolume.normalize_volumes (available_volume : ℕ)
    (l : List PriceVolume) : List PriceVolume :=
  let normed := normalizeOnly available_volume l
  if dustTriggered available_volume l then
    (normed.take (available_volume / DUST_LIMIT)).map
      (fun pv => { pv with volume := DUST_LIMIT })
  else normed

/-- The single-pass adjustment loop of `PriceVolume::generate` (lines
142-155): walk the ladder once; while the signed `adjustment` is
nonzero, add `1` to a positive-volume entry if it is positive, subtract
`1` from a `>1`-volume entry if it is negative.  Returns the adjusted
ladder together with the leftover adjustment. -/
def adjustLoop : ℤ → List PriceVolume → List PriceVolume × ℤ
  | adjustment, [] => ([], adjustment)
  | adjustment, pv :: rest =>
    if adjustment = 0 then (pv :: rest, 0)
    else if 0 < adjustment ∧ 0 < pv.volume then
      let res := adjustLoop (adjustment - 1) rest
      ({ pv with volume := pv.volume + 1 } :: res.1, res.2)
    else if adjustment < 0 ∧ 1 < pv.volume then
      let res := adjustLoop (adjustment + 1) rest
      ({ pv with volume := pv.volume - 1 } :: res.1, res.2)
    else
      let res := adjustLoop adjustment rest
      (pv :: res.1, res.2)

/-- The ladder of `PriceVolume::generate` just before the final
defensive filter — the list on which the source's
`assert!(final_total_volume <= available_volume)` is evaluated. -/
def PriceVolume.generateUnfiltered (available_volume : ℕ) (center_price : ℚ)
    (divisions : ℕ) (price_width : ℚ) (ft r : ℚ) : List PriceVolume :=
  let pvs := PriceVolume.normalize_volumes available_volume
    (rawEntries center_price divisions price_width ft r)
  (adjustLoop ((available_volume : ℤ) - (sumVolume pvs : ℤ)) pvs).1

/-- `PriceVolume::generate` (watcher.rs lines 100-194), with the
float-derived `first_term`/`ratio` as parameters `ft`/`r` (see the file
header): early-return `[]` below the dust limit; build the raw ladder;
normalize; run the single-pass adjustment; drop entries whose volume is
`0` or exceeds `available_volume`. -/
def PriceVolume.generate (available_volume : ℕ) (center_price : ℚ)
    (divisions : ℕ) (price_width : ℚ) (ft r : ℚ) : List PriceVolume :=
  if available_volume < DUST_LIMIT then []
  else
    (PriceVolume.generateUnfiltered available_volume center_price divisions
      price_width ft r).filter
      (fun pv => decide (0 < pv.volume ∧ pv.volume ≤ available_volume))

example : sumVolume (PriceVolume.generate 10000 1 2 1 99980001 (1/9999)) = 5002 := by decide

example : PriceVolume.generate 2000 1 2 1 5 (1/2) = [] := by decide

/-- `struct BidAsk { bids, asks: Vec<PriceVolume>, center_price: f64 }`. -/
structure BidAsk where
  bids : List PriceVolume
  asks : List PriceVolume
  center_price : ℚ
deriving DecidableEq

/-- `BidAsk::sum_bid_volume`. -/
def BidAsk.sum_bid_volume (b : BidAsk) : ℕ := sumVolume b.bids

/-- `BidAsk::sum_ask_volume`. -/
def BidAsk.sum_ask_volume (b : BidAsk) : ℕ := sumVolume b.asks

/-- `BidAsk::generate` (watcher.rs lines 301-352).  The two inner
`PriceVolume::generate` calls receive distinct float-derived
first-term/ratio pairs (the bid call uses `scale / 2.0`, the ask call
`scale`), modelled by the four parameters `ftB rB ftA rA`; `0.9`, `3.0`
and the reciprocal are exact in `ℚ`.  Bids are generated only when
`pair_balance_btc > 0`, asks only when `available_balance_rdg > 0`
(an `i64`, hence the `ℤ` parameter). -/
def BidAsk.generate (available_balance_rdg : ℤ) (pair_balance_btc : ℕ)
    (last_exchange_price : ℚ) (divisions : ℕ)
    (ftB rB ftA rA : ℚ) (min_ask : ℚ) : BidAsk :=
  let bids := if 0 < pair_balance_btc then
      PriceVolume.generate pair_balance_btc last_exchange_price divisions
        (last_exchange_price * (9 / 10)) ftB rB
    else []
  let ask_price := max (1 / last_exchange_price) min_ask
  let asks := if 0 < available_balance_rdg then
      PriceVolume.generate available_balance_rdg.toNat ask_price divisions
        (ask_price * 3) ftA rA
    else []
  { bids := bids, asks := asks, center_price := last_exchange_price }

/-- `BidAsk::generate_default`: divisions fixed to 40 (scale 20.0 is
absorbed into the float-derived parameters). -/
def BidAsk.generate_default (available_balance : ℤ) (pair_balance : ℕ)
    (last_exchange_price : ℚ) (ftB rB ftA rA : ℚ) (min_ask : ℚ) : BidAsk :=
  BidAsk.generate available_balance pair_balance last_exchange_price 40
    ftB rB ftA rA min_ask

/-- `BidAsk::regenerate` (watcher.rs lines 276-283): rebuild a default
curve from the current per-side volume sums and a new price. -/
def BidAsk.regenerate (b : BidAsk) (price : ℚ) (min_ask : ℚ)
    (ftB rB ftA rA : ℚ) : BidAsk :=
  BidAsk.generate_default (b.sum_ask_volume : ℤ) b.sum_bid_volume price
    ftB rB ftA rA min_ask

/-- Stand-in for `redgold_schema::structs::Address` (only its identity
matters here). -/
structure Address where
  id : ℕ
deriving DecidableEq

/-- Stand-in for `ExternalTransactionId { identifier: String }` (the
identifier is abstracted to `ℕ`). -/
structure ExternalTransactionId where
  identifier : ℕ
deriving DecidableEq

/-- `struct OrderFulfillment` (watcher.rs lines 355-364). -/
structure OrderFulfillment where
  order_amount : ℕ
  fulfilled_amount : ℕ
  updated_curve : List PriceVolume
  is_ask_fulfillment_from_external_deposit : Bool
  event_time : ℤ
  tx_id_ref : Option ExternalTransactionId
  destination : Address
deriving DecidableEq

/-- The curve walk of `BidAsk::fulfill_taker_order` (watcher.rs lines
433-458), threading `remaining_order_amount` and `fulfilled_amount`:
at each step the other-asset request is
`(remaining_order_amount as f64 / pv.price) as u64` (float division by
zero yields `+inf`, cast-saturated to `U64_MAX`, except `0.0/0.0 = NaN`
which casts to `0`); a step whose volume is at most that request is
consumed entirely (`remaining -= (volume as f64 * price) as u64`,
volume zeroed) and the walk continues, otherwise the step is partially
consumed and the walk stops.  Returns (remaining, fulfilled, curve). -/
def otherAmountRequested (remaining : ℕ) (price : ℚ) : ℕ :=
  if price = 0 then (if remaining = 0 then 0 else U64_MAX)
  else asU64 ((remaining : ℚ) / price)

def fulfillLoop : ℕ → ℕ → List PriceVolume → ℕ × ℕ × List PriceVolume
  | remaining, fulfilled, [] => (remaining, fulfilled, [])
  | remaining, fulfilled, pv :: rest =>
    let other_amount_requested : ℕ := otherAmountRequested remaining pv.price
    if pv.volume ≤ other_amount_requested then
      let remaining2 := remaining - asU64 ((pv.volume : ℚ) * pv.price)
      let res := fulfillLoop remaining2 (fulfilled + pv.volume) rest
      (res.1, res.2.1, { pv with volume := 0 } :: res.2.2)
    else
      (0, fulfilled + other_amount_requested,
        { pv with volume := pv.volume - other_amount_requested } :: rest)

/-- `BidAsk::fulfill_taker_order` (watcher.rs lines 414-475): walk a
clone of the chosen side, strip zero-volume steps, and return `None`
when the fulfilled amount is below the dust limit. -/
def BidAsk.fulfill_taker_order (b : BidAsk) (order_amount : ℕ)
    (is_ask : Bool) (event_time : ℤ) (tx_id : Option ℕ)
    (destination : Address) : Option OrderFulfillment :=
  let curve := if is_ask then b.asks else b.bids
  let walk := fulfillLoop order_amount 0 curve
  let fulfilled_amount := walk.2.1
  let updated_curve := walk.2.2.filter (fun v => decide (0 < v.volume))
  if fulfilled_amount < DUST_LIMIT then none
  else some
    { order_amount := order_amount
      fulfilled_amount := fulfilled_amount
      updated_curve := updated_curve
      is_ask_fulfillment_from_external_deposit := is_ask
      event_time := event_time
      tx_id_ref := tx_id.map (fun i => { identifier := i })
      destination := destination }

/-- The same method with the receiver state threaded explicitly: the
Rust method takes `&self` and clones the chosen side before mutating,
so the receiver it hands back is built from the untouched fields. -/
def BidAsk.fulfill_taker_order_st (b : BidAsk) (order_amount : ℕ)
    (is_ask : Bool) (event_time : ℤ) (tx_id : Option ℕ)
    (destination : Address) : BidAsk × Option OrderFulfillment :=
  ({ bids := b.bids, asks := b.asks, center_price := b.center_price },
    b.fulfill_taker_order order_amount is_ask event_time tx_id destination)

example :
    (BidAsk.fulfill_taker_order ⟨[], [⟨7/2000, 30000⟩, ⟨1, 1000000⟩], 2000/7⟩
      20000 true 0 none ⟨0⟩).map
      (fun f => (f.fulfilled_amount, f.updated_curve)) =
    some (49895, [⟨1, 980105⟩]) := by decide

/-- Stand-in for `redgold_schema::structs::ErrorInfo` (message
abstracted to a numeric code). -/
structure ErrorInfo where
  code : ℕ
deriving DecidableEq

/-- Stand-in for a ledger `Transaction` (content abstracted). -/
structure Transaction where
  id : ℕ
deriving DecidableEq

/-- Stand-in for a gossiped `Observation` (content abstracted). -/
structure Observation where
  id : ℕ
deriving DecidableEq

/-- Stand-in for one peer's `PeerNodeInfo` store row. -/
structure PeerNodeInfo where
  id : ℕ
deriving DecidableEq

/-- `HashSearchRequest { search_string }` (search string abstracted). -/
structure HashSearchRequest where
  search_string : ℕ
deriving DecidableEq

/-- Stand-in for `HashSearchResponse` (content abstracted). -/
structure HashSearchResponse where
  data : ℕ
deriving DecidableEq

/-- `SubmitTransactionRequest { transaction, sync_query_response }`. -/
structure SubmitTransactionRequest where
  transaction : Option Transaction
  sync_query_response : Bool
deriving DecidableEq

/-- Stand-in for `SubmitTransactionResponse` (content abstracted). -/
structure SubmitTransactionResponse where
  transaction_hash : ℕ
deriving DecidableEq

/-- `GetPeersInfoRequest` carries no data used by the dispatcher. -/
structure GetPeersInfoRequest where
deriving DecidableEq

/-- `GetPeersInfoResponse { peer_info }`. -/
structure GetPeersInfoResponse where
  peer_info : List PeerNodeInfo
deriving DecidableEq

/-- `GossipTransactionRequest { transaction: Option<Transaction> }`. -/
structure GossipTransactionRequest where
  transaction : Option Transaction
deriving DecidableEq

/-- `GossipObservationRequest { observation: Option<Observation> }`. -/
structure GossipObservationRequest where
  observation : Option Observation
deriving DecidableEq

/-- Stand-in for `DownloadRequest` (content abstracted). -/
structure DownloadRequest where
  offset : ℕ
deriving DecidableEq

/-- Stand-in for `DownloadResponse` (content abstracted). -/
structure DownloadResponse where
  data : ℕ
deriving DecidableEq

/-- `AboutNodeRequest { verbose }`. -/
structure AboutNodeRequest where
  verbose : Bool
deriving DecidableEq

/-- `AboutNodeResponse { latest_metadata }`. -/
structure AboutNodeResponse where
  latest_metadata : Option PeerNodeInfo
deriving DecidableEq

/-- `MultipartyThresholdRequest { initiate_keygen, initiate_signing }`
(payloads abstracted; the dispatcher only spawns follower rounds from
them and never writes a synchronous response). -/
structure MultipartyThresholdRequest where
  initiate_keygen : Option ℕ
  initiate_signing : Option ℕ
deriving DecidableEq

/-- Modelled from the spec: a network `Request` is "a structure with
many independent optional sub-request fields" (the schema crate is not
part of the excerpted sources; the fields are exactly the ones
`request_response` in `peer_rx_event_handler.rs` dispatches on). -/
structure Request where
  hash_search_request : Option HashSearchRequest
  submit_transaction_request : Option SubmitTransactionRequest
  get_peers_info_request : Option GetPeersInfoRequest
  gossip_transaction_request : Option GossipTransactionRequest
  gossip_observation_request : Option GossipObservationRequest
  download_request : Option DownloadRequest
  about_node_request : Option AboutNodeRequest
  multiparty_threshold_request : Option MultipartyThresholdRequest
deriving DecidableEq

/-- Modelled from the spec: "a Response mirrors this with optional
sub-response fields plus a uniform error slot". -/
structure Response where
  hash_search_response : Option HashSearchResponse
  submit_transaction_response : Option SubmitTransactionResponse
  get_peers_info_response : Option GetPeersInfoResponse
  download_response : Option DownloadResponse
  about_node_response : Option AboutNodeResponse
  error_info : Option ErrorInfo
deriving DecidableEq

/-- Modelled from the spec: `Response::empty_success` — all sub-response
fields absent, empty error slot. -/
def Response.empty_success : Response :=
  { hash_search_response := none
    submit_transaction_response := none
    get_peers_info_response := none
    download_response := none
    about_node_response := none
    error_info := none }

/-- Modelled from the spec: `Response::from_error_info` — an otherwise
empty response whose uniform error slot carries the error. -/
def Response.from_error_info (e : ErrorInfo) : Response :=
  { Response.empty_success with error_info := some e }

/-- Outcome of one `request_response` run: a response, an error
escalated by `?`, or a process abort from an `.expect(..)` on a
failed channel send / missing gossip payload. -/
inductive DispatchOutcome where
  | ok (resp : Response)
  | err (e : ErrorInfo)
  | panicked
deriving DecidableEq

/-- The dispatcher's external collaborators, abstracted as outcome
functions: the hash query, `Relay::submit_transaction`, the peer
store's `peer_node_info` listing, the two gossip channel sends (`true`
= send accepted), `process_download_request`, and this node's own
metadata for about-requests. -/
structure DispatchEnv where
  hash_query : ℕ → Except ErrorInfo HashSearchResponse
  submit_transaction : SubmitTransactionRequest → Except ErrorInfo SubmitTransactionResponse
  peer_node_info : Except ErrorInfo (List PeerNodeInfo)
  transaction_send_ok : Bool
  observation_send_ok : Bool
  download : DownloadRequest → Except ErrorInfo DownloadResponse
  node_peer_data : PeerNodeInfo

/-- One `if let Some(r) = request.hash_search_request` step. -/
def stepHashSearch (env : DispatchEnv) (request : Request) (response : Response) :
    DispatchOutcome :=
  match request.hash_search_request with
  | none => .ok response
  | some hsr =>
    match env.hash_query hsr.search_string with
    | .ok h => .ok { response with hash_search_response := some h }
    | .error e => .err e

/-- `if let Some(s) = request.submit_transaction_request` — the `?` on
`relay.submit_transaction(s)` escalates the error. -/
def stepSubmit (env : DispatchEnv) (request : Request) (response : Response) :
    DispatchOutcome :=
  match request.submit_transaction_request with
  | none => .ok response
  | some s =>
    match env.submit_transaction s with
    | .ok sr => .ok { response with submit_transaction_response := some sr }
    | .error e => .err e

/-- `if let Some(_) = request.get_peers_info_request` — the store
listing's `?` escalates the error. -/
def stepGetPeersInfo (env : DispatchEnv) (request : Request) (response : Response) :
    DispatchOutcome :=
  match request.get_peers_info_request with
  | none => .ok response
  | some _ =>
    match env.peer_node_info with
    | .ok vec => .ok { response with get_peers_info_response := some { peer_info := vec } }
    | .error e => .err e

/-- `if let Some(t) = request.gossip_transaction_request` —
`t.transaction.unwrap()` panics on a missing payload and the channel
send's `.expect(..)` panics on failure; the response is unchanged. -/
def stepGossipTransaction (env : DispatchEnv) (request : Request) (response : Response) :
    DispatchOutcome :=
  match request.gossip_transaction_request with
  | none => .ok response
  | some t =>
    match t.transaction with
    | none => .panicked
    | some _ => if env.transaction_send_ok then .ok response else .panicked

/-- `if let Some(o) = request.gossip_observation_request` — same shape
as the transaction gossip step. -/
def stepGossipObservation (env : DispatchEnv) (request : Request) (response : Response) :
    DispatchOutcome :=
  match request.gossip_observation_request with
  | none => .ok response
  | some o =>
    match o.observation with
    | none => .panicked
    | some _ => if env.observation_send_ok then .ok response else .panicked

/-- `if let Some(download_request) = request.download_request` — the
mapped store error escalates through `?`. -/
def stepDownload (env : DispatchEnv) (request : Request) (response : Response) :
    DispatchOutcome :=
  match request.download_request with
  | none => .ok response
  | some d =>
    match env.download d with
    | .ok dr => .ok { response with download_response := some dr }
    | .error e => .err e

/-- `if let Some(_) = request.about_node_request` — always succeeds,
returning this node's metadata. -/
def stepAboutNode (env : DispatchEnv) (request : Request) (response : Response) :
    DispatchOutcome :=
  match request.about_node_request with
  | none => .ok response
  | some _ =>
    .ok { response with
          about_node_response := some (AboutNodeResponse.mk (some env.node_peer_data)) }

/-- `if let Some(r) = request.multiparty_threshold_request` — follower
rounds are spawned as independent tasks whose results are only logged;
the synchronous response is never modified. -/
def stepMultiparty (_env : DispatchEnv) (request : Request) (response : Response) :
    DispatchOutcome :=
  match request.multiparty_threshold_request with
  | none => .ok response
  | some _ => .ok response

/-- Sequence two dispatcher steps: errors and panics short-circuit
exactly as `?` / `.expect` do in the source. -/
def andThenStep (o : DispatchOutcome) (step : Response → DispatchOutcome) :
    DispatchOutcome :=
  match o with
  | .ok resp => step resp
  | .err e => .err e
  | .panicked => .panicked

/-- `PeerRxEventHandler::request_response` (peer_rx_event_handler.rs
lines 130-239): starting from `Response::empty_success`, run the eight
field handlers in source order, short-circuiting on the first `?` error
or panic. -/
def PeerRxEventHandler.request_response (env : DispatchEnv) (request : Request) :
    DispatchOutcome :=
  andThenStep (andThenStep (andThenStep (andThenStep (andThenStep (andThenStep
    (andThenStep
      (stepHashSearch env request Response.empty_success)
      (stepSubmit env request))
      (stepGetPeersInfo env request))
      (stepGossipTransaction env request))
      (stepGossipObservation env request))
      (stepDownload env request))
      (stepAboutNode env request))
      (stepMultiparty env request)

/-- The response produced by `PeerRxEventHandler::request_response_rest`
(lines 46-66): `request_response(..).map_err(Response::from_error_info).combine()`
— an escalated error becomes the overall response's embedded error;
`none` models a process abort (a panic inside the dispatcher).  The
peer-store side effects of the rest layer do not affect the response. -/
def PeerRxEventHandler.request_response_rest (env : DispatchEnv) (request : Request) :
    Option Response :=
  match PeerRxEventHandler.request_response env request with
  | .ok resp => some resp
  | .err e => some (Response.from_error_info e)
  | .panicked => none

/-- Stand-in for `structs::PublicKey` used as a broadcast target id. -/
structure RPublicKey where
  key : ℕ
deriving DecidableEq

/-- The fan-out loop of `Relay::broadcast` (relay.rs lines 173-203):
one future per listed node, in input order; `outcome i n req t` is the
abstract result of the `i`-th spawned
`Relay::send_message_sync_static(.., req, n, Some(t))` call (join-handle
failures are already folded into its error case by
`.error_info(..).and_then(|e| e)`). -/
def broadcastLoop (outcome : ℕ → RPublicKey → Request → ℕ → Except ErrorInfo Response)
    (request : Request) (t : ℕ) :
    ℕ → List RPublicKey → List (RPublicKey × Except ErrorInfo Response)
  | _, [] => []
  | i, n :: rest =>
    (n, outcome i n request t) :: broadcastLoop outcome request t (i + 1) rest

/-- `Relay::broadcast`: `future::join_all` over the per-node futures,
with the default 20-second timeout
(`timeout.unwrap_or(Duration::from_secs(20))`) passed to every call. -/
def Relay.broadcast (outcome : ℕ → RPublicKey → Request → ℕ → Except ErrorInfo Response)
    (nodes : List RPublicKey) (request : Request) (timeout : Option ℕ) :
    List (RPublicKey × Except ErrorInfo Response) :=
  broadcastLoop outcome request (timeout.getD 20) 0 nodes

theorem sumVolume_nil : sumVolume [] = 0 := rfl

theorem sumVolume_cons (pv : PriceVolume) (l : List PriceVolume) :
    sumVolume (pv :: l) = pv.volume + sumVolume l := by
  simp [sumVolume]

theorem adjustLoop_length (a : ℤ) (l : List PriceVolume) :
    (adjustLoop a l).1.length = l.length := by
  induction l generalizing a with
  | nil => simp [adjustLoop]
  | cons pv rest ih =>
    simp only [adjustLoop]
    split_ifs with h1 h2 h3 <;> simp [ih]

theorem adjustLoop_sum (a : ℤ) (l : List PriceVolume) :
    (sumVolume (adjustLoop a l).1 : ℤ) = (sumVolume l : ℤ) + a - (adjustLoop a l).2 := by
  induction l generalizing a with
  | nil => simp [adjustLoop]
  | cons pv rest ih =>
    simp only [adjustLoop]
    split_ifs with h1 h2 h3
    · simp [h1]
    · have h := ih (a - 1)
      simp only [sumVolume_cons]
      push_cast
      push_cast at h
      omega
    · have h := ih (a + 1)
      simp only [sumVolume_cons]
      have hv : 1 ≤ pv.volume := Nat.one_le_iff_ne_zero.mpr (by omega)
      push_cast
      push_cast at h
      omega
    · have h := ih a
      simp only [sumVolume_cons]
      push_cast
      push_cast at h
      omega

theorem adjustLoop_leftover_nonneg (a : ℤ) (l : List PriceVolume) (ha : 0 ≤ a) :
    0 ≤ (adjustLoop a l).2 := by
  induction l generalizing a with
  | nil => simpa [adjustLoop]
  | cons pv rest ih =>
    simp only [adjustLoop]
    split_ifs with h1 h2 h3
    · omega
    · exact ih (a - 1) (by omega)
    · omega
    · exact ih a ha

theorem adjustLoop_leftover_pos (a : ℤ) (l : List PriceVolume) (ha : 0 ≤ a)
    (hpos : ∀ pv ∈ l, 0 < pv.volume) :
    (adjustLoop a l).2 = max (a - l.length) 0 := by
  induction l generalizing a with
  | nil => simp [adjustLoop]; omega
  | cons pv rest ih =>
    simp only [adjustLoop]
    split_ifs with h1 h2 h3
    · simp; omega
    · have h := ih (a - 1) (by omega) (fun x hx => hpos x (List.mem_cons_of_mem pv hx))
      simp only [List.length_cons]
      push_cast
      omega
    · omega
    · exact absurd ⟨by omega, hpos pv (List.mem_cons_self pv rest)⟩ h2

theorem adjustLoop_leftover_neg (a : ℤ) (l : List PriceVolume) (ha : a ≤ 0)
    (hbig : ∀ pv ∈ l, 1 < pv.volume) (hlen : -a ≤ l.length) :
    (adjustLoop a l).2 = 0 := by
  induction l generalizing a with
  | nil => simp at hlen; simp [adjustLoop]; omega
  | cons pv rest ih =>
    simp only [adjustLoop]
    split_ifs with h1 h2 h3
    · rfl
    · omega
    · refine ih (a + 1) (by omega) (fun x hx => hbig x (List.mem_cons_of_mem pv hx)) ?h
      simp only [List.length_cons] at hlen
      push_cast at hlen ⊢
      omega
    · exact absurd ⟨by omega, hbig pv (List.mem_cons_self pv rest)⟩ h3

theorem adjustLoop_mem (a : ℤ) (l : List PriceVolume) :
    ∀ pv2 ∈ (adjustLoop a l).1, ∃ pv ∈ l,
      pv2.price = pv.price ∧ pv.volume - 1 ≤ pv2.volume ∧ pv2.volume ≤ pv.volume + 1 := by
  induction l generalizing a with
  | nil => simp [adjustLoop]
  | cons pv rest ih =>
    simp only [adjustLoop]
    split_ifs with h1 h2 h3
    · intro pv2 h2m
      exact ⟨pv2, h2m, rfl, by omega, by omega⟩
    · intro pv2 h2m
      rcases List.mem_cons.mp h2m with heq | hmem
      · exact ⟨pv, List.mem_cons_self pv rest, by simp [heq], by simp [heq]; omega,
          by simp [heq]⟩
      · obtain ⟨x, hx, hpx, hvx⟩ := ih (a - 1) pv2 hmem
        exact ⟨x, List.mem_cons_of_mem pv hx, hpx, hvx⟩
    · intro pv2 h2m
      rcases List.mem_cons.mp h2m with heq | hmem
      · exact ⟨pv, List.mem_cons_self pv rest, by simp [heq], by simp [heq],
          by simp [heq]; omega⟩
      · obtain ⟨x, hx, hpx, hvx⟩ := ih (a + 1) pv2 hmem
        exact ⟨x, List.mem_cons_of_mem pv hx, hpx, hvx⟩
    · intro pv2 h2m
      rcases List.mem_cons.mp h2m with heq | hmem
      · exact ⟨pv, List.mem_cons_self pv rest, by simp [heq], by simp [heq], by simp [heq]⟩
      · obtain ⟨x, hx, hpx, hvx⟩ := ih a pv2 hmem
        exact ⟨x, List.mem_cons_of_mem pv hx, hpx, hvx⟩

theorem adjustLoop_zero (l : List PriceVolume) : adjustLoop 0 l = (l, 0) := by
  cases l <;> simp [adjustLoop]

theorem roundAsU64_le (q : ℚ) (hq : 0 ≤ q) : (roundAsU64 q : ℚ) ≤ q + 1 / 2 := by
  have h0 : (0 : ℤ) ≤ round q := by
    rw [round_eq]
    exact Int.floor_nonneg.mpr (by linarith)
  have hmin : roundAsU64 q ≤ (round q).toNat := by
    rw [roundAsU64, ratRound_eq]
    exact min_le_left _ _
  have hcast : (((round q).toNat : ℕ) : ℚ) = ((round q : ℤ) : ℚ) := by
    exact_mod_cast congrArg (fun z : ℤ => (z : ℚ)) (Int.toNat_of_nonneg h0)
  have hr : ((round q : ℤ) : ℚ) ≤ q + 1 / 2 := by
    have := abs_sub_round q
    rw [abs_le] at this
    linarith [this.1]
  calc (roundAsU64 q : ℚ) ≤ (((round q).toNat : ℕ) : ℚ) := by exact_mod_cast hmin
    _ ≤ q + 1 / 2 := by rw [hcast]; exact hr

theorem le_roundAsU64 (q : ℚ) (hq : 0 ≤ q) (hle : q ≤ (U64_MAX : ℚ)) :
    q - 1 / 2 ≤ (roundAsU64 q : ℚ) := by
  have h0 : (0 : ℤ) ≤ round q := by
    rw [round_eq]
    exact Int.floor_nonneg.mpr (by linarith)
  have hMAX : round q ≤ (U64_MAX : ℤ) := by
    have : round q ≤ round ((U64_MAX : ℕ) : ℚ) := by
      rw [round_eq, round_eq]
      exact Int.floor_le_floor (by linarith)
    simpa using this
  have heq : roundAsU64 q = (round q).toNat := by
    rw [roundAsU64, ratRound_eq]
    exact min_eq_left (by omega)
  have hr : q - 1 / 2 ≤ ((round q : ℤ) : ℚ) := by
    have := abs_sub_round q
    rw [abs_le] at this
    linarith [this.2]
  rw [heq]
  calc q - 1 / 2 ≤ ((round q : ℤ) : ℚ) := hr
    _ = (((round q).toNat : ℕ) : ℚ) := by
        exact_mod_cast (congrArg (fun z : ℤ => (z : ℚ)) (Int.toNat_of_nonneg h0)).symm

theorem roundAsU64_le_of_le (q : ℚ) (a : ℕ) (hq : 0 ≤ q) (hle : q ≤ (a : ℚ)) :
    roundAsU64 q ≤ a := by
  have h0 : (0 : ℤ) ≤ round q := by
    rw [round_eq]
    exact Int.floor_nonneg.mpr (by linarith)
  have hra : round q ≤ (a : ℤ) := by
    have h1 : round q ≤ round ((a : ℕ) : ℚ) := by
      rw [round_eq, round_eq]
      exact Int.floor_le_floor (by linarith)
    simpa using h1
  calc roundAsU64 q ≤ (round q).toNat := by rw [roundAsU64, ratRound_eq]; exact min_le_left _ _
    _ ≤ a := by omega

theorem volume_le_sumVolume (l : List PriceVolume) (pv : PriceVolume) (h : pv ∈ l) :
    pv.volume ≤ sumVolume l := by
  induction l with
  | nil => cases h
  | cons x rest ih =>
    rcases List.mem_cons.mp h with heq | hmem
    · rw [heq, sumVolume_cons]; omega
    · have := ih hmem
      rw [sumVolume_cons]; omega

theorem list_sum_map_le {α : Type} (l : List α) (f g : α → ℚ) (c : ℚ)
    (h : ∀ a ∈ l, f a ≤ g a + c) :
    (l.map f).sum ≤ (l.map g).sum + l.length * c := by
  induction l with
  | nil => simp
  | cons x rest ih =>
    simp only [List.map_cons, List.sum_cons, List.length_cons]
    have h1 := h x (List.mem_cons_self x rest)
    have h2 := ih (fun a ha => h a (List.mem_cons_of_mem x ha))
    push_cast
    linarith

theorem normalizeOnly_length (av : ℕ) (l : List PriceVolume) :
    (normalizeOnly av l).length = l.length := by
  simp [normalizeOnly]

/-- The rescaled volumes as a mapped list of rationals. -/
theorem sumVolume_normalizeOnly_cast (av : ℕ) (l : List PriceVolume) :
    ((sumVolume (normalizeOnly av l) : ℕ) : ℚ) =
      (l.map (fun pv =>
        ((roundAsU64 ((pv.volume : ℚ) / (sumVolume l : ℚ) * (av : ℚ)) : ℕ) : ℚ))).sum := by
  rw [sumVolume, normalizeOnly, List.map_map, Nat.cast_list_sum, List.map_map]
  rfl

theorem sum_rescaled_eq (av : ℕ) (l : List PriceVolume) (hT : sumVolume l ≠ 0) :
    (l.map (fun pv => (pv.volume : ℚ) / (sumVolume l : ℚ) * (av : ℚ))).sum = (av : ℚ) := by
  have hfun : (fun pv : PriceVolume => (pv.volume : ℚ) / (sumVolume l : ℚ) * (av : ℚ)) =
      (fun pv : PriceVolume => (pv.volume : ℚ) * ((av : ℚ) / (sumVolume l : ℚ))) := by
    funext pv; ring
  rw [hfun, List.sum_map_mul_right]
  have hsum : (l.map (fun pv : PriceVolume => (pv.volume : ℚ))).sum =
      ((sumVolume l : ℕ) : ℚ) := by
    rw [sumVolume, Nat.cast_list_sum, List.map_map]
    rfl
  rw [hsum]
  have hT2 : ((sumVolume l : ℕ) : ℚ) ≠ 0 := Nat.cast_ne_zero.mpr hT
  field_simp

theorem normalizeOnly_sum_ub (av : ℕ) (l : List PriceVolume) (hT : sumVolume l ≠ 0) :
    sumVolume (normalizeOnly av l) ≤ av + l.length := by
  have hcast := sumVolume_normalizeOnly_cast av l
  have hb : (l.map (fun pv =>
      ((roundAsU64 ((pv.volume : ℚ) / (sumVolume l : ℚ) * (av : ℚ)) : ℕ) : ℚ))).sum ≤
      (l.map (fun pv => (pv.volume : ℚ) / (sumVolume l : ℚ) * (av : ℚ))).sum +
        l.length * (1 / 2) := by
    apply list_sum_map_le
    intro pv _
    apply roundAsU64_le
    positivity
  rw [sum_rescaled_eq av l hT] at hb
  have : ((sumVolume (normalizeOnly av l) : ℕ) : ℚ) ≤ (av : ℚ) + (l.length : ℚ) := by
    rw [hcast]
    calc _ ≤ (av : ℚ) + l.length * (1 / 2) := hb
      _ ≤ (av : ℚ) + (l.length : ℚ) := by
          have : (0 : ℚ) ≤ (l.length : ℚ) := by positivity
          linarith
  exact_mod_cast this

theorem normalizeOnly_sum_lb (av : ℕ) (l : List PriceVolume) (hT : sumVolume l ≠ 0)
    (hMAX : av ≤ U64_MAX) :
    av ≤ sumVolume (normalizeOnly av l) + l.length := by
  have hcast := sumVolume_normalizeOnly_cast av l
  have hb : (l.map (fun pv => (pv.volume : ℚ) / (sumVolume l : ℚ) * (av : ℚ))).sum ≤
      (l.map (fun pv =>
        ((roundAsU64 ((pv.volume : ℚ) / (sumVolume l : ℚ) * (av : ℚ)) : ℕ) : ℚ))).sum +
        l.length * (1 / 2) := by
    apply list_sum_map_le
    intro pv hpv
    have hq : (0 : ℚ) ≤ (pv.volume : ℚ) / (sumVolume l : ℚ) * (av : ℚ) := by positivity
    have hvle : (pv.volume : ℚ) ≤ (sumVolume l : ℚ) :=
      Nat.cast_le.mpr (volume_le_sumVolume l pv hpv)
    have hT2 : (0 : ℚ) < ((sumVolume l : ℕ) : ℚ) := by
      have : 0 < sumVolume l := Nat.pos_of_ne_zero hT
      exact_mod_cast this
    have hle : (pv.volume : ℚ) / (sumVolume l : ℚ) * (av : ℚ) ≤ (av : ℚ) := by
      have hovT : (pv.volume : ℚ) / (sumVolume l : ℚ) ≤ 1 := by
        rw [div_le_one hT2]
        exact hvle
      calc (pv.volume : ℚ) / (sumVolume l : ℚ) * (av : ℚ) ≤ 1 * (av : ℚ) := by
            apply mul_le_mul_of_nonneg_right hovT (by positivity)
        _ = (av : ℚ) := one_mul _
    have hleMAX : (pv.volume : ℚ) / (sumVolume l : ℚ) * (av : ℚ) ≤ ((U64_MAX : ℕ) : ℚ) := by
      calc _ ≤ (av : ℚ) := hle
        _ ≤ ((U64_MAX : ℕ) : ℚ) := Nat.cast_le.mpr hMAX
    have := le_roundAsU64 _ hq hleMAX
    linarith
  rw [sum_rescaled_eq av l hT] at hb
  have : (av : ℚ) ≤ ((sumVolume (normalizeOnly av l) : ℕ) : ℚ) + (l.length : ℚ) := by
    rw [hcast]
    calc (av : ℚ) ≤ _ + l.length * (1 / 2) := hb
      _ ≤ _ + (l.length : ℚ) := by
          have : (0 : ℚ) ≤ (l.length : ℚ) := by positivity
          linarith
  exact_mod_cast this

theorem roundAsU64_zero : roundAsU64 0 = 0 := by decide

theorem normalizeOnly_mem_price (av : ℕ) (l : List PriceVolume) (pv2 : PriceVolume)
    (h : pv2 ∈ normalizeOnly av l) : ∃ pv ∈ l, pv2.price = pv.price := by
  rw [normalizeOnly, List.mem_map] at h
  obtain ⟨pv, hpv, heq⟩ := h
  exact ⟨pv, hpv, by rw [← heq]⟩

theorem normalizeOnly_zero_total (av : ℕ) (l : List PriceVolume)
    (hT : sumVolume l = 0) (pv2 : PriceVolume) (h : pv2 ∈ normalizeOnly av l) :
    pv2.volume = 0 := by
  rw [normalizeOnly, List.mem_map] at h
  obtain ⟨pv, _, heq⟩ := h
  have hq : (pv.volume : ℚ) / (sumVolume l : ℚ) * (av : ℚ) = 0 := by
    rw [hT]
    simp
  rw [← heq]
  simp only [hq]
  exact roundAsU64_zero

theorem notDust_iff (av : ℕ) (l : List PriceVolume) :
    ¬ dustTriggered av l ↔ ∀ pv ∈ normalizeOnly av l, DUST_LIMIT ≤ pv.volume := by
  rw [dustTriggered]
  push_neg
  rfl

theorem dustTriggered_of_zero_total (av : ℕ) (l : List PriceVolume)
    (hT : sumVolume l = 0) (hl : l ≠ []) : dustTriggered av l := by
  obtain ⟨x, rest, rfl⟩ := List.exists_cons_of_ne_nil hl
  have hmem : ∃ pv2, pv2 ∈ normalizeOnly av (x :: rest) := by
    rw [normalizeOnly]
    exact ⟨_, List.mem_map_of_mem _ (List.mem_cons_self x rest)⟩
  obtain ⟨pv2, hpv2⟩ := hmem
  have := normalizeOnly_zero_total av (x :: rest) hT pv2 hpv2
  exact ⟨pv2, hpv2, by rw [this]; decide⟩

theorem sumVolume_map_constVol (l : List PriceVolume) (c : ℕ) :
    sumVolume (l.map (fun pv => { pv with volume := c })) = l.length * c := by
  induction l with
  | nil => simp [sumVolume]
  | cons x rest ih =>
    simp only [List.map_cons, sumVolume_cons, List.length_cons, ih]
    ring

theorem normalize_volumes_of_notDust (av : ℕ) (l : List PriceVolume)
    (h : ¬ dustTriggered av l) :
    PriceVolume.normalize_volumes av l = normalizeOnly av l := by
  rw [PriceVolume.normalize_volumes, if_neg h]

theorem normalize_volumes_of_dust (av : ℕ) (l : List PriceVolume)
    (h : dustTriggered av l) :
    PriceVolume.normalize_volumes av l =
      ((normalizeOnly av l).take (av / DUST_LIMIT)).map
        (fun pv => { pv with volume := DUST_LIMIT }) := by
  rw [PriceVolume.normalize_volumes, if_pos h]

theorem generateUnfiltered_notDust_spec (av div : ℕ) (cp pw ft r : ℚ)
    (hMAX : av ≤ U64_MAX)
    (hne : rawEntries cp div pw ft r ≠ [])
    (hnd : ¬ dustTriggered av (rawEntries cp div pw ft r)) :
    sumVolume (PriceVolume.generateUnfiltered av cp div pw ft r) = av ∧
    (∀ pv ∈ PriceVolume.generateUnfiltered av cp div pw ft r,
      DUST_LIMIT - 1 ≤ pv.volume) ∧
    (PriceVolume.generateUnfiltered av cp div pw ft r).length =
      (rawEntries cp div pw ft r).length := by
  set l := rawEntries cp div pw ft r with hl
  have hT : sumVolume l ≠ 0 := fun h0 => hnd (dustTriggered_of_zero_total av l h0 hne)
  set normed := normalizeOnly av l with hnormed
  have hnv : PriceVolume.normalize_volumes av l = normed :=
    normalize_volumes_of_notDust av l hnd
  have hDU : ∀ pv ∈ normed, DUST_LIMIT ≤ pv.volume := (notDust_iff av l).mp hnd
  have hlen : normed.length = l.length := normalizeOnly_length av l
  set S := sumVolume normed with hS
  have hub : S ≤ av + l.length := normalizeOnly_sum_ub av l hT
  have hlb : av ≤ S + l.length := normalizeOnly_sum_lb av l hT hMAX
  set a : ℤ := (av : ℤ) - (S : ℤ) with ha
  have hgu : PriceVolume.generateUnfiltered av cp div pw ft r = (adjustLoop a normed).1 := by
    simp only [PriceVolume.generateUnfiltered, ← hl, hnv, ← hS, ← ha]
  have hleft : (adjustLoop a normed).2 = 0 := by
    rcases le_or_lt 0 a with hc | hc
    · rw [adjustLoop_leftover_pos a normed hc
        (fun pv hpv => lt_of_lt_of_le (by decide) (hDU pv hpv))]
      have hal : a ≤ (normed.length : ℤ) := by rw [hlen]; omega
      omega
    · exact adjustLoop_leftover_neg a normed (le_of_lt hc)
        (fun pv hpv => lt_of_lt_of_le (by decide) (hDU pv hpv)) (by rw [hlen]; omega)
  refine ⟨?s, ?m, ?len⟩
  case s =>
    have hsum := adjustLoop_sum a normed
    rw [hleft] at hsum
    rw [hgu]
    omega
  case m =>
    intro pv hpv
    rw [hgu] at hpv
    obtain ⟨x, hx, _, hlow, _⟩ := adjustLoop_mem a normed pv hpv
    have := hDU x hx
    omega
  case len => rw [hgu, adjustLoop_length, hlen]

theorem generateUnfiltered_dust_spec (av div : ℕ) (cp pw ft r : ℚ)
    (hge : DUST_LIMIT ≤ av)
    (hd : dustTriggered av (rawEntries cp div pw ft r)) :
    sumVolume (PriceVolume.generateUnfiltered av cp div pw ft r) =
      (min (av / DUST_LIMIT) (rawEntries cp div pw ft r).length) * DUST_LIMIT +
        min (av - (min (av / DUST_LIMIT) (rawEntries cp div pw ft r).length) * DUST_LIMIT)
            (min (av / DUST_LIMIT) (rawEntries cp div pw ft r).length) ∧
    (∀ pv ∈ PriceVolume.generateUnfiltered av cp div pw ft r,
        DUST_LIMIT - 1 ≤ pv.volume ∧ pv.volume ≤ av) ∧
    (PriceVolume.generateUnfiltered av cp div pw ft r).length =
      min (av / DUST_LIMIT) (rawEntries cp div pw ft r).length := by
  set l := rawEntries cp div pw ft r with hl
  set normed := normalizeOnly av l with hnormed
  set flat := (normed.take (av / DUST_LIMIT)).map
      (fun pv => { pv with volume := DUST_LIMIT }) with hflat
  set k := min (av / DUST_LIMIT) l.length with hk
  have hnv : PriceVolume.normalize_volumes av l = flat := normalize_volumes_of_dust av l hd
  have hlen : normed.length = l.length := normalizeOnly_length av l
  have hflatlen : flat.length = k := by
    rw [hflat, List.length_map, List.length_take, hlen]
  have hflatvol : ∀ pv ∈ flat, pv.volume = DUST_LIMIT := by
    intro pv hpv
    rw [hflat, List.mem_map] at hpv
    obtain ⟨x, _, heq⟩ := hpv
    rw [← heq]
  have hS : sumVolume flat = k * DUST_LIMIT := by
    rw [hflat, sumVolume_map_constVol, List.length_take, hlen]
  have hkDle : k * DUST_LIMIT ≤ av := by
    calc k * DUST_LIMIT ≤ (av / DUST_LIMIT) * DUST_LIMIT :=
          Nat.mul_le_mul_right _ (min_le_left _ _)
      _ ≤ av := Nat.div_mul_le_self av DUST_LIMIT
  have hk1 : 1 ≤ k := by
    have hd1 : 1 ≤ av / DUST_LIMIT := (Nat.one_le_div_iff (by decide)).mpr hge
    have hl1 : 1 ≤ l.length := by
      obtain ⟨pv2, hpv2, _⟩ := hd
      have : normed ≠ [] := fun h0 => by rw [hnormed] at h0; rw [h0] at hpv2; cases hpv2
      have : normed.length ≠ 0 := fun h0 => this (List.eq_nil_of_length_eq_zero h0)
      omega
    omega
  set a : ℤ := (av : ℤ) - (sumVolume flat : ℤ) with ha
  have ha0 : 0 ≤ a := by rw [ha, hS]; omega
  have hgu : PriceVolume.generateUnfiltered av cp div pw ft r = (adjustLoop a flat).1 := by
    simp only [PriceVolume.generateUnfiltered, ← hl, hnv, ← ha]
  have hleft : (adjustLoop a flat).2 = max (a - flat.length) 0 :=
    adjustLoop_leftover_pos a flat ha0
      (fun pv hpv => by rw [hflatvol pv hpv]; decide)
  refine ⟨?s, ?m, ?len⟩
  case s =>
    have hsum := adjustLoop_sum a flat
    rw [hleft] at hsum
    rw [hgu]
    rw [hflatlen] at hsum
    have hSz := hS
    omega
  case m =>
    intro pv hpv
    rw [hgu] at hpv
    obtain ⟨x, hx, _, hlow, hhigh⟩ := adjustLoop_mem a flat pv hpv
    have hxv := hflatvol x hx
    rcases eq_or_lt_of_le ha0 with hz | hpos
    · rw [← hz, adjustLoop_zero] at hpv
      have hxv2 := hflatvol pv hpv
      omega
    · have hav : k * DUST_LIMIT + 1 ≤ av := by rw [ha, hS] at hpos; omega
      have : DUST_LIMIT + 1 ≤ av := by
        calc DUST_LIMIT + 1 ≤ k * DUST_LIMIT + 1 := by
              have := Nat.le_mul_of_pos_left DUST_LIMIT hk1
              omega
          _ ≤ av := hav
      omega
  case len => rw [hgu, adjustLoop_length, hflatlen]

theorem generate_eq_unfiltered (av div : ℕ) (cp pw ft r : ℚ)
    (hge : DUST_LIMIT ≤ av)
    (hall : ∀ pv ∈ PriceVolume.generateUnfiltered av cp div pw ft r,
      0 < pv.volume ∧ pv.volume ≤ av) :
    PriceVolume.generate av cp div pw ft r =
      PriceVolume.generateUnfiltered av cp div pw ft r := by
  rw [PriceVolume.generate, if_neg (by omega)]
  rw [List.filter_eq_self]
  intro pv hpv
  simpa using hall pv hpv

theorem generate_spec (av div : ℕ) (cp pw ft r : ℚ)
    (hge : DUST_LIMIT ≤ av) (hMAX : av ≤ U64_MAX)
    (hne : rawEntries cp div pw ft r ≠ []) :
    PriceVolume.generate av cp div pw ft r =
      PriceVolume.generateUnfiltered av cp div pw ft r ∧
    (¬ dustTriggered av (rawEntries cp div pw ft r) →
        sumVolume (PriceVolume.generate av cp div pw ft r) = av) ∧
    (dustTriggered av (rawEntries cp div pw ft r) →
        sumVolume (PriceVolume.generate av cp div pw ft r) =
          (min (av / DUST_LIMIT) (rawEntries cp div pw ft r).length) * DUST_LIMIT +
            min (av - (min (av / DUST_LIMIT) (rawEntries cp div pw ft r).length) *
                  DUST_LIMIT)
                (min (av / DUST_LIMIT) (rawEntries cp div pw ft r).length)) ∧
    PriceVolume.generate av cp div pw ft r ≠ [] := by
  by_cases hd : dustTriggered av (rawEntries cp div pw ft r)
  · obtain ⟨hs, hm, hlen⟩ := generateUnfiltered_dust_spec av div cp pw ft r hge hd
    have heq : PriceVolume.generate av cp div pw ft r =
        PriceVolume.generateUnfiltered av cp div pw ft r := by
      apply generate_eq_unfiltered av div cp pw ft r hge
      intro pv hpv
      have h1 := hm pv hpv
      have hD : DUST_LIMIT = 2500 := rfl
      omega
    have hk1 : 1 ≤ min (av / DUST_LIMIT) (rawEntries cp div pw ft r).length := by
      have hd1 : 1 ≤ av / DUST_LIMIT := (Nat.one_le_div_iff (by decide)).mpr hge
      have hl1 : 1 ≤ (rawEntries cp div pw ft r).length := by
        have : rawEntries cp div pw ft r ≠ [] := hne
        have : (rawEntries cp div pw ft r).length ≠ 0 :=
          fun h0 => this (List.eq_nil_of_length_eq_zero h0)
        omega
      omega
    refine ⟨heq, fun hc => absurd hd hc, fun _ => by rw [heq]; exact hs, ?ne⟩
    intro h0
    rw [heq] at h0
    rw [h0] at hlen
    simp at hlen
    omega
  · obtain ⟨hs, hm, hlen⟩ := generateUnfiltered_notDust_spec av div cp pw ft r hMAX hne hd
    have heq : PriceVolume.generate av cp div pw ft r =
        PriceVolume.generateUnfiltered av cp div pw ft r := by
      apply generate_eq_unfiltered av div cp pw ft r hge
      intro pv hpv
      have h1 := hm pv hpv
      have h2 := volume_le_sumVolume _ pv hpv
      rw [hs] at h2
      constructor
      · have : (2499 : ℕ) ≤ pv.volume := by
          calc (2499 : ℕ) = DUST_LIMIT - 1 := by decide
            _ ≤ pv.volume := h1
        omega
      · exact h2
    refine ⟨heq, fun _ => by rw [heq]; exact hs, fun hc => absurd hc hd, ?ne2⟩
    intro h0
    rw [heq] at h0
    rw [h0] at hlen
    simp at hlen
    have hl1 : (rawEntries cp div pw ft r).length ≠ 0 :=
      fun hz => hne (List.eq_nil_of_length_eq_zero hz)
    omega

theorem sum_after_adjust_le (av : ℕ) (m : List PriceVolume)
    (hcase : sumVolume m ≤ av ∨
      ((∀ pv ∈ m, 1 < pv.volume) ∧ sumVolume m ≤ av + m.length)) :
    sumVolume (adjustLoop ((av : ℤ) - (sumVolume m : ℤ)) m).1 ≤ av := by
  set a : ℤ := (av : ℤ) - (sumVolume m : ℤ) with ha
  have hsum := adjustLoop_sum a m
  rcases hcase with hle | ⟨hbig, hub⟩
  · have h0 : 0 ≤ a := by omega
    have hleft := adjustLoop_leftover_nonneg a m h0
    omega
  · rcases le_or_lt 0 a with h0 | hneg
    · have hleft := adjustLoop_leftover_nonneg a m h0
      omega
    · have hleft := adjustLoop_leftover_neg a m (le_of_lt hneg) hbig (by omega)
      omega

theorem generateUnfiltered_sum_le (av div : ℕ) (cp pw ft r : ℚ) :
    sumVolume (PriceVolume.generateUnfiltered av cp div pw ft r) ≤ av := by
  have hshape : PriceVolume.generateUnfiltered av cp div pw ft r =
      (adjustLoop
        ((av : ℤ) -
          (sumVolume (PriceVolume.normalize_volumes av
            (rawEntries cp div pw ft r)) : ℤ))
        (PriceVolume.normalize_volumes av (rawEntries cp div pw ft r))).1 := rfl
  rw [hshape]
  apply sum_after_adjust_le
  set l := rawEntries cp div pw ft r with hl
  by_cases hd : dustTriggered av l
  · left
    rw [normalize_volumes_of_dust av l hd, sumVolume_map_constVol]
    calc ((normalizeOnly av l).take (av / DUST_LIMIT)).length * DUST_LIMIT
        ≤ (av / DUST_LIMIT) * DUST_LIMIT := by
          apply Nat.mul_le_mul_right
          rw [List.length_take]
          omega
      _ ≤ av := Nat.div_mul_le_self av DUST_LIMIT
  · by_cases hne : l = []
    · left
      rw [normalize_volumes_of_notDust av l hd, hne]
      simp [normalizeOnly, sumVolume]
    · right
      have hT : sumVolume l ≠ 0 := fun h0 => hd (dustTriggered_of_zero_total av l h0 hne)
      have hDU : ∀ pv ∈ normalizeOnly av l, DUST_LIMIT ≤ pv.volume := (notDust_iff av l).mp hd
      rw [normalize_volumes_of_notDust av l hd]
      constructor
      · intro pv hpv
        exact lt_of_lt_of_le (by decide) (hDU pv hpv)
      · rw [normalizeOnly_length]
        exact normalizeOnly_sum_ub av l hT

theorem rawEntries_mem_price (cp : ℚ) (div : ℕ) (pw ft r : ℚ) (pv : PriceVolume)
    (h : pv ∈ rawEntries cp div pw ft r) :
    ∃ i : ℕ, i < div ∧ pv.price = cp + ((i : ℚ) + 1) * (pw / (div : ℚ)) := by
  rw [rawEntries, List.mem_filterMap] at h
  obtain ⟨i, hi, heq⟩ := h
  rw [List.mem_range] at hi
  by_cases hneg : cp + ((i : ℕ) + 1 : ℕ) * (pw / (div : ℚ)) < 0
  · simp only [hneg, if_pos, reduceCtorEq] at heq
  · simp only [hneg, if_neg, not_false_iff, Option.some.injEq] at heq
    refine ⟨i, hi, ?e⟩
    rw [← heq]
    push_cast
    ring

theorem rawEntries_ne_nil (cp : ℚ) (div : ℕ) (pw ft r : ℚ) (hdiv : 0 < div)
    (h0 : 0 ≤ cp + ((0 : ℕ) + 1 : ℕ) * (pw / (div : ℚ))) :
    rawEntries cp div pw ft r ≠ [] := by
  apply List.ne_nil_of_mem (a := PriceVolume.mk
    (cp + ((0 : ℕ) + 1 : ℕ) * (pw / (div : ℚ))) (asU64 (ft * r ^ (div - 0))))
  rw [rawEntries, List.mem_filterMap]
  refine ⟨0, List.mem_range.mpr hdiv, ?e⟩
  rw [if_neg (not_lt.mpr h0)]

theorem normalize_volumes_mem_price (av : ℕ) (l : List PriceVolume) (pv2 : PriceVolume)
    (h : pv2 ∈ PriceVolume.normalize_volumes av l) : ∃ pv ∈ l, pv2.price = pv.price := by
  rw [PriceVolume.normalize_volumes] at h
  by_cases hd : dustTriggered av l
  · rw [if_pos hd, List.mem_map] at h
    obtain ⟨x, hx, heq⟩ := h
    have hx2 : x ∈ normalizeOnly av l := List.mem_of_mem_take hx
    obtain ⟨pv, hpv, hpx⟩ := normalizeOnly_mem_price av l x hx2
    exact ⟨pv, hpv, by rw [← heq]; exact hpx⟩
  · rw [if_neg hd] at h
    exact normalizeOnly_mem_price av l pv2 h

theorem generate_mem_price (av div : ℕ) (cp pw ft r : ℚ) (pv : PriceVolume)
    (h : pv ∈ PriceVolume.generate av cp div pw ft r) :
    ∃ i : ℕ, i < div ∧ pv.price = cp + ((i : ℚ) + 1) * (pw / (div : ℚ)) := by
  rw [PriceVolume.generate] at h
  by_cases hsmall : av < DUST_LIMIT
  · rw [if_pos hsmall] at h
    cases h
  · rw [if_neg hsmall] at h
    have h1 : pv ∈ PriceVolume.generateUnfiltered av cp div pw ft r :=
      List.mem_of_mem_filter h
    have hshape : PriceVolume.generateUnfiltered av cp div pw ft r =
        (adjustLoop
          ((av : ℤ) -
            (sumVolume (PriceVolume.normalize_volumes av
              (rawEntries cp div pw ft r)) : ℤ))
          (PriceVolume.normalize_volumes av (rawEntries cp div pw ft r))).1 := rfl
    rw [hshape] at h1
    obtain ⟨x, hx, hpx, _, _⟩ := adjustLoop_mem _ _ pv h1
    obtain ⟨y, hy, hpy⟩ := normalize_volumes_mem_price av _ x hx
    obtain ⟨i, hi, hpi⟩ := rawEntries_mem_price cp div pw ft r y hy
    exact ⟨i, hi, by rw [hpx, hpy, hpi]⟩

theorem fulfillLoop_sum (rem ful : ℕ) (l : List PriceVolume) :
    sumVolume (fulfillLoop rem ful l).2.2 + (fulfillLoop rem ful l).2.1 =
      sumVolume l + ful := by
  induction l generalizing rem ful with
  | nil => simp [fulfillLoop]
  | cons pv rest ih =>
    simp only [fulfillLoop]
    split_ifs with hfull
    · dsimp only
      have := ih (rem - asU64 ((pv.volume : ℚ) * pv.price)) (ful + pv.volume)
      simp only [sumVolume_cons]
      omega
    · dsimp only
      simp only [sumVolume_cons]
      omega

theorem fulfillLoop_mem (rem ful : ℕ) (l : List PriceVolume) :
    ∀ pv2 ∈ (fulfillLoop rem ful l).2.2, ∃ pv ∈ l,
      pv2.price = pv.price ∧ pv2.volume ≤ pv.volume := by
  induction l generalizing rem ful with
  | nil => simp [fulfillLoop]
  | cons pv rest ih =>
    simp only [fulfillLoop]
    split_ifs with hfull <;> dsimp only <;> intro pv2 hm <;>
      rcases List.mem_cons.mp hm with heq | hmem
    · exact ⟨pv, List.mem_cons_self pv rest, by simp [heq], by simp [heq]⟩
    · obtain ⟨x, hx, hp, hv⟩ := ih _ _ pv2 hmem
      exact ⟨x, List.mem_cons_of_mem pv hx, hp, hv⟩
    · exact ⟨pv, List.mem_cons_self pv rest, by simp [heq], by simp [heq]⟩
    · exact ⟨pv2, List.mem_cons_of_mem pv hmem, rfl, le_refl _⟩

theorem sumVolume_filter_pos (l : List PriceVolume) :
    sumVolume (l.filter (fun v => decide (0 < v.volume))) = sumVolume l := by
  induction l with
  | nil => rfl
  | cons pv rest ih =>
    by_cases h : 0 < pv.volume
    · rw [List.filter_cons_of_pos (by simpa using h), sumVolume_cons, sumVolume_cons, ih]
    · rw [List.filter_cons_of_neg (by simpa using h), sumVolume_cons, ih]
      omega

theorem broadcastLoop_length (outcome : ℕ → RPublicKey → Request → ℕ →
      Except ErrorInfo Response)
    (request : Request) (t : ℕ) (k : ℕ) (l : List RPublicKey) :
    (broadcastLoop outcome request t k l).length = l.length := by
  induction l generalizing k with
  | nil => rfl
  | cons n rest ih => simp [broadcastLoop, ih]

theorem broadcastLoop_getElem (outcome : ℕ → RPublicKey → Request → ℕ →
      Except ErrorInfo Response)
    (request : Request) (t : ℕ) (k : ℕ) (l : List RPublicKey) (i : ℕ) (n : RPublicKey)
    (h : l[i]? = some n) :
    (broadcastLoop outcome request t k l)[i]? = some (n, outcome (k + i) n request t) := by
  induction l generalizing k i with
  | nil => simp at h
  | cons x rest ih =>
    cases i with
    | zero =>
      simp only [List.getElem?_cons_zero, Option.some.injEq] at h
      simp [broadcastLoop, h]
    | succ j =>
      simp only [List.getElem?_cons_succ] at h
      have := ih (k + 1) j h
      simp only [broadcastLoop, List.getElem?_cons_succ]
      rw [this]
      ring_nf

/-- C10: for every input on which `PriceVolume::generate` returns
normally, every returned entry has a strictly positive volume that is at
most `available_volume` (bound-violating entries are filtered out before
return), and the internal assertion `final_total_volume <=
available_volume` — evaluated on the pre-filter ladder
`generateUnfiltered` — never fails. -/
theorem priceVolume_generate_output_safe (av div : ℕ) (cp pw ft r : ℚ) :
    (∀ pv ∈ PriceVolume.generate av cp div pw ft r,
      0 < pv.volume ∧ pv.volume ≤ av) ∧
    sumVolume (PriceVolume.generateUnfiltered av cp div pw ft r) ≤ av := by
  constructor
  · intro pv hpv
    rw [PriceVolume.generate] at hpv
    by_cases hsmall : av < DUST_LIMIT
    · rw [if_pos hsmall] at hpv
      cases hpv
    · rw [if_neg hsmall] at hpv
      have := List.of_mem_filter hpv
      simpa using this
  · exact generateUnfiltered_sum_le av div cp pw ft r

/-- Witness for C10 at a concrete input. -/
theorem priceVolume_generate_output_safe_witness :
    (∀ pv ∈ PriceVolume.generate 10000 1 4 1 2500 1,
      0 < pv.volume ∧ pv.volume ≤ 10000) ∧
    sumVolume (PriceVolume.generateUnfiltered 10000 1 4 1 2500 1) ≤ 10000 :=
  priceVolume_generate_output_safe 10000 4 1 1 2500 1

/-- C1 counterexample: at `available_volume = 10000` (dust-limit
multiple, above the limit), `divisions = 2`, valid positive prices, and
float-derived first term 99980001 and ratio 1/9999 (raw volumes 1 and
9999), the dust fallback triggers, and the returned sum is 5002 —
neither `available_volume` (10000) nor
`floor(available_volume/DUST_LIMIT) * DUST_LIMIT` (10000): the
single-pass adjustment loop can only add one unit per flattened step. -/
theorem priceVolume_generate_sum_claim_cex :
    sumVolume (PriceVolume.generate 10000 1 2 1 99980001 (1/9999)) = 5002 ∧
    sumVolume (PriceVolume.generate 10000 1 2 1 99980001 (1/9999)) ≠ 10000 ∧
    sumVolume (PriceVolume.generate 10000 1 2 1 99980001 (1/9999)) ≠
      (10000 / DUST_LIMIT) * DUST_LIMIT := by decide

/-- C1 (amended): with `available_volume` at or above the dust limit
(and within `u64` range, with a nonempty raw ladder), either the dust
fallback does not trigger and the returned volumes sum to
`available_volume` exactly, or it triggers and the sum is
`k*DUST_LIMIT + min(available_volume - k*DUST_LIMIT, k)` where
`k = min(available_volume / DUST_LIMIT, number of raw steps)` — the
flattened ladder has `k` steps of exactly the dust limit and the
single-pass adjustment loop then adds at most one unit per step. -/
theorem priceVolume_generate_sum_cases (av div : ℕ) (cp pw ft r : ℚ)
    (hge : DUST_LIMIT ≤ av) (hMAX : av ≤ U64_MAX)
    (hne : rawEntries cp div pw ft r ≠ []) :
    (¬ dustTriggered av (rawEntries cp div pw ft r) ∧
      sumVolume (PriceVolume.generate av cp div pw ft r) = av) ∨
    (dustTriggered av (rawEntries cp div pw ft r) ∧
      sumVolume (PriceVolume.generate av cp div pw ft r) =
        (min (av / DUST_LIMIT) (rawEntries cp div pw ft r).length) * DUST_LIMIT +
          min (av - (min (av / DUST_LIMIT) (rawEntries cp div pw ft r).length) *
                DUST_LIMIT)
              (min (av / DUST_LIMIT) (rawEntries cp div pw ft r).length)) := by
  obtain ⟨-, hnd, hdu, -⟩ := generate_spec av div cp pw ft r hge hMAX hne
  by_cases hd : dustTriggered av (rawEntries cp div pw ft r)
  · exact Or.inr ⟨hd, hdu hd⟩
  · exact Or.inl ⟨hd, hnd hd⟩

/-- Witness for C1 (amended) at the counterexample input: the dust
branch applies with `k = 2` and sum `5002`. -/
theorem priceVolume_generate_sum_cases_witness :
    (¬ dustTriggered 10000 (rawEntries 1 2 1 99980001 (1/9999)) ∧
      sumVolume (PriceVolume.generate 10000 1 2 1 99980001 (1/9999)) = 10000) ∨
    (dustTriggered 10000 (rawEntries 1 2 1 99980001 (1/9999)) ∧
      sumVolume (PriceVolume.generate 10000 1 2 1 99980001 (1/9999)) =
        (min (10000 / DUST_LIMIT) (rawEntries 1 2 1 99980001 (1/9999)).length) *
          DUST_LIMIT +
          min (10000 - (min (10000 / DUST_LIMIT)
                (rawEntries 1 2 1 99980001 (1/9999)).length) * DUST_LIMIT)
              (min (10000 / DUST_LIMIT) (rawEntries 1 2 1 99980001 (1/9999)).length)) :=
  priceVolume_generate_sum_cases 10000 2 1 1 99980001 (1/9999)
    (by decide) (by decide) (by decide)

/-- C2: whenever `fulfill_taker_order` returns `Some`, every step of
the returned `updated_curve` matches a step of the pre-call ladder of
the chosen side with the same price and no larger volume, and the
updated curve's total volume plus the fulfilled amount equals the
pre-call side total — so the total strictly decreases by the fulfilled
equivalent (the fulfilled amount is positive, being at least the dust
limit). -/
theorem fulfill_taker_order_monotone (b : BidAsk) (order_amount : ℕ) (is_ask : Bool)
    (event_time : ℤ) (tx_id : Option ℕ) (destination : Address) (f : OrderFulfillment)
    (h : b.fulfill_taker_order order_amount is_ask event_time tx_id destination = some f) :
    (∀ pv2 ∈ f.updated_curve, ∃ pv ∈ (if is_ask then b.asks else b.bids),
      pv2.price = pv.price ∧ pv2.volume ≤ pv.volume) ∧
    sumVolume f.updated_curve + f.fulfilled_amount =
      sumVolume (if is_ask then b.asks else b.bids) ∧
    0 < f.fulfilled_amount := by
  simp only [BidAsk.fulfill_taker_order] at h
  set curve := if is_ask then b.asks else b.bids with hc
  by_cases hlt : (fulfillLoop order_amount 0 curve).2.1 < DUST_LIMIT
  · rw [if_pos hlt] at h
    cases h
  · rw [if_neg hlt] at h
    have hf := (Option.some.injEq _ _).mp h
    refine ⟨?m, ?s, ?p⟩
    case m =>
      intro pv2 hpv2
      rw [← hf] at hpv2
      simp only at hpv2
      have hmem : pv2 ∈ (fulfillLoop order_amount 0 curve).2.2 :=
        List.mem_of_mem_filter hpv2
      exact fulfillLoop_mem order_amount 0 curve pv2 hmem
    case s =>
      rw [← hf]
      simp only
      rw [sumVolume_filter_pos]
      have := fulfillLoop_sum order_amount 0 curve
      omega
    case p =>
      rw [← hf]
      simp only
      have hD : DUST_LIMIT = 2500 := rfl
      omega

/-- Witness for C2: a one-step ask ladder partially consumed. -/
theorem fulfill_taker_order_monotone_witness :
    (∀ pv2 ∈ (OrderFulfillment.mk 5000 5000 [PriceVolume.mk 1 5000] true 0 none
        (Address.mk 0)).updated_curve,
      ∃ pv ∈ (if true then [PriceVolume.mk 1 10000] else ([] : List PriceVolume)),
        pv2.price = pv.price ∧ pv2.volume ≤ pv.volume) ∧
    sumVolume (OrderFulfillment.mk 5000 5000 [PriceVolume.mk 1 5000] true 0 none
        (Address.mk 0)).updated_curve +
      (OrderFulfillment.mk 5000 5000 [PriceVolume.mk 1 5000] true 0 none
        (Address.mk 0)).fulfilled_amount =
      sumVolume (if true then [PriceVolume.mk 1 10000] else ([] : List PriceVolume)) ∧
    0 < (OrderFulfillment.mk 5000 5000 [PriceVolume.mk 1 5000] true 0 none
        (Address.mk 0)).fulfilled_amount :=
  fulfill_taker_order_monotone (BidAsk.mk [] [PriceVolume.mk 1 10000] 1) 5000 true 0
    none (Address.mk 0)
    (OrderFulfillment.mk 5000 5000 [PriceVolume.mk 1 5000] true 0 none (Address.mk 0))
    (by decide)

/-- C8: when the total amount the curve walk fulfills is below the dust
limit, `fulfill_taker_order` returns `None`. -/
theorem fulfill_taker_order_dust_none (b : BidAsk) (order_amount : ℕ) (is_ask : Bool)
    (event_time : ℤ) (tx_id : Option ℕ) (destination : Address)
    (h : (fulfillLoop order_amount 0 (if is_ask then b.asks else b.bids)).2.1 <
      DUST_LIMIT) :
    b.fulfill_taker_order order_amount is_ask event_time tx_id destination = none := by
  simp only [BidAsk.fulfill_taker_order]
  rw [if_pos h]

/-- Witness for C8: a zero order amount fulfills nothing. -/
theorem fulfill_taker_order_dust_none_witness :
    (BidAsk.mk [] [PriceVolume.mk 1 10000] 1).fulfill_taker_order 0 true 0 none
      (Address.mk 0) = none :=
  fulfill_taker_order_dust_none (BidAsk.mk [] [PriceVolume.mk 1 10000] 1) 0 true 0
    none (Address.mk 0) (by decide)

/-- C9: `fulfill_taker_order` takes `&self` and clones the chosen side
before mutating, so the receiver is unchanged: the state-threaded
version hands back exactly the original `BidAsk` together with the pure
function's result. -/
theorem fulfill_taker_order_frame (b : BidAsk) (order_amount : ℕ) (is_ask : Bool)
    (event_time : ℤ) (tx_id : Option ℕ) (destination : Address) :
    (b.fulfill_taker_order_st order_amount is_ask event_time tx_id destination).1 = b ∧
    (b.fulfill_taker_order_st order_amount is_ask event_time tx_id destination).2 =
      b.fulfill_taker_order order_amount is_ask event_time tx_id destination :=
  ⟨rfl, rfl⟩

/-- C6 counterexample: against the ask ladder `[(price 0.0035 =
7/2000, volume 30000), (price 1.0, volume 1000000)]`, an
`order_amount = 20000` ask order does NOT stay within the first step:
the requested RDG-equivalent `20000 / 0.0035 = 5714285` exceeds the
step's 30000 volume, so the whole step is consumed and the walk spills
into the second step (its volume drops from 1000000 to 980105), and the
returned `fulfilled_amount` is 49895, not the first-step-price
equivalent. -/
theorem fulfill_scenario_cex :
    ((BidAsk.mk [] [PriceVolume.mk (7/2000) 30000, PriceVolume.mk 1 1000000]
        (2000/7)).fulfill_taker_order 20000 true 0 none (Address.mk 0)).map
      (fun f => (f.fulfilled_amount, f.updated_curve.map PriceVolume.volume)) =
      some (49895, [980105]) ∧
    (49895 : ℕ) ≠ asU64 ((20000 : ℚ) / (7 / 2000)) ∧
    ¬ (1000000 : ℕ) ∈ [(980105 : ℕ)] := by decide

/-- C6 (amended): in the concrete scenario the first step is consumed
entirely (it contributes its full 30000 volume), the walk spills into
the second step, and the result is `fulfilled_amount = 49895` with the
partially consumed second step at volume 980105 as the only remaining
step. -/
theorem fulfill_scenario_amended :
    (BidAsk.mk [] [PriceVolume.mk (7/2000) 30000, PriceVolume.mk 1 1000000]
        (2000/7)).fulfill_taker_order 20000 true 0 none (Address.mk 0) =
      some (OrderFulfillment.mk 20000 49895 [PriceVolume.mk 1 980105] true 0 none
        (Address.mk 0)) := by decide

/-- C5 counterexample: with the claimed parameters, the generated bid
prices do NOT lie in the claimed band `[300*0.1, 300]` — the code
passes a positive `price_width` (`last_exchange_price*0.9`) to the bid
ladder, so bid prices lie strictly above the center price (here
327..570).  Shown at float-derived parameters `ftB = rB = 1`. -/
theorem bidask_generate_scenario_cex :
    PriceVolume.mk 327 5000 ∈ (BidAsk.generate 1000000 50000 300 10 1 1 1 1
      (1/1000)).bids ∧
    ¬ (300 * (1/10 : ℚ) ≤ 327 ∧ (327 : ℚ) ≤ 300) := by decide

/-- C5 (amended): for every float-derived parameter choice, the
scenario `BidAsk::generate(1_000_000, 50_000, 300.0, divisions=10,
min_ask=0.001)` produces non-empty asks and bids; every ask price is at
least `max(1/300, 0.001)`; and every bid price lies in `(300, 570]` —
i.e. within `price_width = 0.9*300` ABOVE the center price, not in the
claimed band `[30, 300]` below it. -/
theorem bidask_generate_scenario (ftB rB ftA rA : ℚ) :
    (BidAsk.generate 1000000 50000 300 10 ftB rB ftA rA (1/1000)).asks ≠ [] ∧
    (BidAsk.generate 1000000 50000 300 10 ftB rB ftA rA (1/1000)).bids ≠ [] ∧
    (∀ pv ∈ (BidAsk.generate 1000000 50000 300 10 ftB rB ftA rA (1/1000)).asks,
      max (1/(300:ℚ)) (1/1000) ≤ pv.price) ∧
    (∀ pv ∈ (BidAsk.generate 1000000 50000 300 10 ftB rB ftA rA (1/1000)).bids,
      300 < pv.price ∧ pv.price ≤ 570) := by
  have hmax : max (1/(300:ℚ)) (1/1000) = 1/300 := by
    rw [max_eq_left (by norm_num)]
  have e1 : (BidAsk.generate 1000000 50000 300 10 ftB rB ftA rA (1/1000)).asks =
      if 0 < (1000000:ℤ) then
        PriceVolume.generate (Int.toNat 1000000) (max (1/(300:ℚ)) (1/1000)) 10
          ((max (1/(300:ℚ)) (1/1000)) * 3) ftA rA
      else [] := rfl
  have hasks : (BidAsk.generate 1000000 50000 300 10 ftB rB ftA rA (1/1000)).asks =
      PriceVolume.generate 1000000 (1/300) 10 ((1/300) * 3) ftA rA := by
    rw [e1, if_pos (by decide), hmax,
      show (Int.toNat 1000000) = 1000000 from by decide]
  have hbids : (BidAsk.generate 1000000 50000 300 10 ftB rB ftA rA (1/1000)).bids =
      PriceVolume.generate 50000 300 10 (300 * (9/10)) ftB rB := by
    have e2 : (BidAsk.generate 1000000 50000 300 10 ftB rB ftA rA (1/1000)).bids =
        if 0 < (50000:ℕ) then
          PriceVolume.generate 50000 300 10 ((300:ℚ) * (9/10)) ftB rB
        else [] := rfl
    rw [e2, if_pos (by decide)]
  have hneA : rawEntries (1/(300:ℚ)) 10 ((1/300) * 3) ftA rA ≠ [] := by
    apply rawEntries_ne_nil _ _ _ _ _ (by decide)
    push_cast
    norm_num
  have hneB : rawEntries (300:ℚ) 10 (300 * (9/10)) ftB rB ≠ [] := by
    apply rawEntries_ne_nil _ _ _ _ _ (by decide)
    push_cast
    norm_num
  refine ⟨?a, ?b, ?ap, ?bp⟩
  case a =>
    rw [hasks]
    exact (generate_spec 1000000 10 (1/300) ((1/300) * 3) ftA rA (by decide) (by decide)
      hneA).2.2.2
  case b =>
    rw [hbids]
    exact (generate_spec 50000 10 300 (300 * (9/10)) ftB rB (by decide) (by decide)
      hneB).2.2.2
  case ap =>
    intro pv hpv
    rw [hasks] at hpv
    obtain ⟨i, hi, hp⟩ := generate_mem_price 1000000 10 (1/300) ((1/300) * 3) ftA rA
      pv hpv
    rw [hmax, hp]
    have hpos : (0:ℚ) ≤ ((i:ℚ) + 1) * (((1/300) * 3) / 10) := by positivity
    linarith
  case bp =>
    intro pv hpv
    rw [hbids] at hpv
    obtain ⟨i, hi, hp⟩ := generate_mem_price 50000 10 300 (300 * (9/10)) ftB rB pv hpv
    have hps : ((300:ℚ) * (9/10)) / ((10:ℕ):ℚ) = 27 := by push_cast; norm_num
    rw [hp, hps]
    have h0 : (0:ℚ) ≤ (i:ℚ) := Nat.cast_nonneg i
    have h9 : (i:ℚ) ≤ 9 := by
      have : i ≤ 9 := Nat.lt_succ_iff.mp hi
      exact_mod_cast this
    constructor
    · nlinarith
    · nlinarith

/-- C7 counterexample: a curve whose ask total is 3000 (above the dust
limit, `min_ask = 0.001` well below the resulting ask center 1)
regenerates — at float-derived parameters 1,1,1,1 — into an ask ladder
whose total is 2501, not 3000: the 40-way split of 3000 puts every step
below the dust limit, the dust fallback flattens the ladder to a single
2500 step, and the single-pass adjustment adds only one unit. -/
theorem bidask_regenerate_cex :
    ((BidAsk.mk [] [PriceVolume.mk 1 3000] 1).regenerate 1 (1/1000)
        1 1 1 1).sum_ask_volume = 2501 ∧
    (BidAsk.mk [] [PriceVolume.mk 1 3000] 1).sum_ask_volume = 3000 ∧
    ((BidAsk.mk [] [PriceVolume.mk 1 3000] 1).regenerate 1 (1/1000)
        1 1 1 1).sum_ask_volume ≠
      (BidAsk.mk [] [PriceVolume.mk 1 3000] 1).sum_ask_volume := by decide

/-- C7 (amended): `regenerate` preserves each side's total volume
provided that side is either empty (total 0) or its regenerated ladder
is in range, has a nonempty raw ladder and avoids the dust fallback;
when the dust fallback triggers (or a nonzero total is below the dust
limit), the regenerated total differs in general. -/
theorem bidask_regenerate_sum_cases (b : BidAsk) (price min_ask : ℚ)
    (ftB rB ftA rA : ℚ)
    (hbid : b.sum_bid_volume = 0 ∨
      (DUST_LIMIT ≤ b.sum_bid_volume ∧ b.sum_bid_volume ≤ U64_MAX ∧
        rawEntries price 40 (price * (9/10)) ftB rB ≠ [] ∧
        ¬ dustTriggered b.sum_bid_volume (rawEntries price 40 (price * (9/10)) ftB rB)))
    (hask : b.sum_ask_volume = 0 ∨
      (DUST_LIMIT ≤ b.sum_ask_volume ∧ b.sum_ask_volume ≤ U64_MAX ∧
        rawEntries (max (1/price) min_ask) 40 ((max (1/price) min_ask) * 3) ftA rA ≠
          [] ∧
        ¬ dustTriggered b.sum_ask_volume
          (rawEntries (max (1/price) min_ask) 40 ((max (1/price) min_ask) * 3)
            ftA rA))) :
    (b.regenerate price min_ask ftB rB ftA rA).sum_bid_volume = b.sum_bid_volume ∧
    (b.regenerate price min_ask ftB rB ftA rA).sum_ask_volume = b.sum_ask_volume := by
  have ebid : (b.regenerate price min_ask ftB rB ftA rA).bids =
      if 0 < b.sum_bid_volume then
        PriceVolume.generate b.sum_bid_volume price 40 (price * (9/10)) ftB rB
      else [] := rfl
  have eask : (b.regenerate price min_ask ftB rB ftA rA).asks =
      if 0 < ((b.sum_ask_volume : ℕ) : ℤ) then
        PriceVolume.generate ((b.sum_ask_volume : ℕ) : ℤ).toNat
          (max (1/price) min_ask) 40 ((max (1/price) min_ask) * 3) ftA rA
      else [] := rfl
  constructor
  · rcases hbid with hz | ⟨hge, hMAX, hne, hnd⟩
    · rw [BidAsk.sum_bid_volume, ebid, hz]
      simp [sumVolume_nil]
    · rw [BidAsk.sum_bid_volume, ebid,
        if_pos (show 0 < b.sum_bid_volume by
          have hD : DUST_LIMIT = 2500 := rfl
          omega)]
      exact (generate_spec b.sum_bid_volume 40 price (price * (9/10)) ftB rB
        hge hMAX hne).2.1 hnd
  · rcases hask with hz | ⟨hge, hMAX, hne, hnd⟩
    · rw [BidAsk.sum_ask_volume, eask, hz]
      simp [sumVolume_nil]
    · have hpos : 0 < b.sum_ask_volume := by
        have hD : DUST_LIMIT = 2500 := rfl
        omega
      rw [BidAsk.sum_ask_volume, eask, if_pos (by exact_mod_cast hpos),
        Int.toNat_natCast]
      exact (generate_spec b.sum_ask_volume 40 (max (1/price) min_ask)
        ((max (1/price) min_ask) * 3) ftA rA hge hMAX hne).2.1 hnd

/-- Witness for C7 (amended): both sides regenerate without the dust
fallback and keep their totals (800000 bid, 1000000 ask). -/
theorem bidask_regenerate_sum_cases_witness :
    ((BidAsk.mk [PriceVolume.mk 1 800000] [PriceVolume.mk 1 1000000] 1).regenerate 1
        (1/1000) 1 1 1 1).sum_bid_volume =
      (BidAsk.mk [PriceVolume.mk 1 800000] [PriceVolume.mk 1 1000000]
        1).sum_bid_volume ∧
    ((BidAsk.mk [PriceVolume.mk 1 800000] [PriceVolume.mk 1 1000000] 1).regenerate 1
        (1/1000) 1 1 1 1).sum_ask_volume =
      (BidAsk.mk [PriceVolume.mk 1 800000] [PriceVolume.mk 1 1000000]
        1).sum_ask_volume :=
  bidask_regenerate_sum_cases
    (BidAsk.mk [PriceVolume.mk 1 800000] [PriceVolume.mk 1 1000000] 1) 1 (1/1000)
    1 1 1 1 (Or.inr (by decide)) (Or.inr (by decide))

/-- C3 counterexample: a request with both the submit-transaction and
the get-peers-info field populated, whose submit handler fails, yields
a Response with NEITHER sub-response populated — the `?` on
`relay.submit_transaction(s)` aborts `request_response` before the
get-peers-info handler runs, and the rest layer returns only the
embedded error. -/
theorem dispatcher_independence_cex :
    (PeerRxEventHandler.request_response_rest
      (DispatchEnv.mk (fun _ => Except.ok (HashSearchResponse.mk 0))
        (fun _ => Except.error (ErrorInfo.mk 7)) (Except.ok []) true true
        (fun _ => Except.ok (DownloadResponse.mk 0)) (PeerNodeInfo.mk 0))
      (Request.mk none (some (SubmitTransactionRequest.mk none false))
        (some GetPeersInfoRequest.mk) none none none none none)).map
      (fun resp => (resp.submit_transaction_response.isSome,
        resp.get_peers_info_response.isSome, resp.error_info)) =
      some (false, false, some (ErrorInfo.mk 7)) := by decide

/-- C3 (amended): for a request carrying both a submit-transaction and
a get-peers-info field (and no other fallible sub-request): if both
collaborators succeed, the response carries both sub-responses, each
equal to its own collaborator's result independently of the other; if
the submit handler fails, `request_response` aborts with that error and
the rest layer returns a Response carrying only the embedded error,
with neither sub-response populated. -/
theorem dispatcher_independence (env : DispatchEnv) (request : Request)
    (s : SubmitTransactionRequest) (g : GetPeersInfoRequest)
    (hs : request.submit_transaction_request = some s)
    (hgp : request.get_peers_info_request = some g)
    (hh : request.hash_search_request = none)
    (hgt : request.gossip_transaction_request = none)
    (hgo : request.gossip_observation_request = none)
    (hd : request.download_request = none) :
    (∀ sr pl, env.submit_transaction s = Except.ok sr →
      env.peer_node_info = Except.ok pl →
      ∃ resp, PeerRxEventHandler.request_response_rest env request = some resp ∧
        resp.submit_transaction_response = some sr ∧
        resp.get_peers_info_response = some (GetPeersInfoResponse.mk pl) ∧
        resp.error_info = none) ∧
    (∀ e, env.submit_transaction s = Except.error e →
      PeerRxEventHandler.request_response_rest env request =
        some (Response.from_error_info e)) := by
  constructor
  · intro sr pl hsub hpl
    cases hab : request.about_node_request with
    | none =>
      cases hmp : request.multiparty_threshold_request with
      | none =>
        refine ⟨{ Response.empty_success with
                  submit_transaction_response := some sr
                  get_peers_info_response := some (GetPeersInfoResponse.mk pl) },
          ?e1, rfl, rfl, rfl⟩
        simp only [PeerRxEventHandler.request_response_rest,
          PeerRxEventHandler.request_response, andThenStep, stepHashSearch, hh,
          stepSubmit, hs, hsub, stepGetPeersInfo, hgp, hpl, stepGossipTransaction,
          hgt, stepGossipObservation, hgo, stepDownload, hd, stepAboutNode, hab,
          stepMultiparty, hmp]
      | some mp =>
        refine ⟨{ Response.empty_success with
                  submit_transaction_response := some sr
                  get_peers_info_response := some (GetPeersInfoResponse.mk pl) },
          ?e2, rfl, rfl, rfl⟩
        simp only [PeerRxEventHandler.request_response_rest,
          PeerRxEventHandler.request_response, andThenStep, stepHashSearch, hh,
          stepSubmit, hs, hsub, stepGetPeersInfo, hgp, hpl, stepGossipTransaction,
          hgt, stepGossipObservation, hgo, stepDownload, hd, stepAboutNode, hab,
          stepMultiparty, hmp]
    | some ab =>
      cases hmp : request.multiparty_threshold_request with
      | none =>
        refine ⟨{ Response.empty_success with
                  submit_transaction_response := some sr
                  get_peers_info_response := some (GetPeersInfoResponse.mk pl)
                  about_node_response :=
                    some (AboutNodeResponse.mk (some env.node_peer_data)) },
          ?e3, rfl, rfl, rfl⟩
        simp only [PeerRxEventHandler.request_response_rest,
          PeerRxEventHandler.request_response, andThenStep, stepHashSearch, hh,
          stepSubmit, hs, hsub, stepGetPeersInfo, hgp, hpl, stepGossipTransaction,
          hgt, stepGossipObservation, hgo, stepDownload, hd, stepAboutNode, hab,
          stepMultiparty, hmp]
      | some mp =>
        refine ⟨{ Response.empty_success with
                  submit_transaction_response := some sr
                  get_peers_info_response := some (GetPeersInfoResponse.mk pl)
                  about_node_response :=
                    some (AboutNodeResponse.mk (some env.node_peer_data)) },
          ?e4, rfl, rfl, rfl⟩
        simp only [PeerRxEventHandler.request_response_rest,
          PeerRxEventHandler.request_response, andThenStep, stepHashSearch, hh,
          stepSubmit, hs, hsub, stepGetPeersInfo, hgp, hpl, stepGossipTransaction,
          hgt, stepGossipObservation, hgo, stepDownload, hd, stepAboutNode, hab,
          stepMultiparty, hmp]
  · intro e hsub
    simp only [PeerRxEventHandler.request_response_rest,
      PeerRxEventHandler.request_response, andThenStep, stepHashSearch, hh,
      stepSubmit, hs, hsub]

/-- Witness for C3 (amended) at a concrete environment and request. -/
theorem dispatcher_independence_witness :
    (∀ sr pl,
      (DispatchEnv.mk (fun _ => Except.ok (HashSearchResponse.mk 0))
        (fun _ => Except.ok (SubmitTransactionResponse.mk 3)) (Except.ok [])
        true true (fun _ => Except.ok (DownloadResponse.mk 0))
        (PeerNodeInfo.mk 0)).submit_transaction (SubmitTransactionRequest.mk none true) =
          Except.ok sr →
      (DispatchEnv.mk (fun _ => Except.ok (HashSearchResponse.mk 0))
        (fun _ => Except.ok (SubmitTransactionResponse.mk 3)) (Except.ok [])
        true true (fun _ => Except.ok (DownloadResponse.mk 0))
        (PeerNodeInfo.mk 0)).peer_node_info = Except.ok pl →
      ∃ resp, PeerRxEventHandler.request_response_rest
        (DispatchEnv.mk (fun _ => Except.ok (HashSearchResponse.mk 0))
          (fun _ => Except.ok (SubmitTransactionResponse.mk 3)) (Except.ok [])
          true true (fun _ => Except.ok (DownloadResponse.mk 0))
          (PeerNodeInfo.mk 0))
        (Request.mk none (some (SubmitTransactionRequest.mk none true))
          (some GetPeersInfoRequest.mk) none none none none none) = some resp ∧
        resp.submit_transaction_response = some sr ∧
        resp.get_peers_info_response = some (GetPeersInfoResponse.mk pl) ∧
        resp.error_info = none) ∧
    (∀ e,
      (DispatchEnv.mk (fun _ => Except.ok (HashSearchResponse.mk 0))
        (fun _ => Except.ok (SubmitTransactionResponse.mk 3)) (Except.ok [])
        true true (fun _ => Except.ok (DownloadResponse.mk 0))
        (PeerNodeInfo.mk 0)).submit_transaction (SubmitTransactionRequest.mk none true) =
          Except.error e →
      PeerRxEventHandler.request_response_rest
        (DispatchEnv.mk (fun _ => Except.ok (HashSearchResponse.mk 0))
          (fun _ => Except.ok (SubmitTransactionResponse.mk 3)) (Except.ok [])
          true true (fun _ => Except.ok (DownloadResponse.mk 0))
          (PeerNodeInfo.mk 0))
        (Request.mk none (some (SubmitTransactionRequest.mk none true))
          (some GetPeersInfoRequest.mk) none none none none none) =
        some (Response.from_error_info e)) :=
  dispatcher_independence
    (DispatchEnv.mk (fun _ => Except.ok (HashSearchResponse.mk 0))
      (fun _ => Except.ok (SubmitTransactionResponse.mk 3)) (Except.ok [])
      true true (fun _ => Except.ok (DownloadResponse.mk 0)) (PeerNodeInfo.mk 0))
    (Request.mk none (some (SubmitTransactionRequest.mk none true))
      (some GetPeersInfoRequest.mk) none none none none none)
    (SubmitTransactionRequest.mk none true) GetPeersInfoRequest.mk
    rfl rfl rfl rfl rfl rfl

/-- C4: `Relay::broadcast` over N target nodes returns exactly N
entries whose order corresponds to the input node order; the `i`-th
entry pairs the `i`-th node with that call's own outcome (its error if
it failed, its Response if it succeeded) — no other node's outcome
enters entry `i` — and every per-node call receives the timeout
`timeout.unwrap_or(20s)`, so the default per-call timeout is 20
seconds. -/
theorem relay_broadcast_fanout
    (outcome : ℕ → RPublicKey → Request → ℕ → Except ErrorInfo Response)
    (nodes : List RPublicKey) (request : Request) (timeout : Option ℕ) :
    (Relay.broadcast outcome nodes request timeout).length = nodes.length ∧
    ∀ i n, nodes[i]? = some n →
      (Relay.broadcast outcome nodes request timeout)[i]? =
        some (n, outcome i n request (timeout.getD 20)) := by
  constructor
  · exact broadcastLoop_length outcome request (timeout.getD 20) 0 nodes
  · intro i n h
    have := broadcastLoop_getElem outcome request (timeout.getD 20) 0 nodes i n h
    simpa using this

/-- Witness for C4: two nodes, the first call failing, default
timeout. -/
theorem relay_broadcast_fanout_witness :
    (Relay.broadcast
      (fun i _ _ _ => if i = 0 then Except.error (ErrorInfo.mk 5)
        else Except.ok Response.empty_success)
      [RPublicKey.mk 1, RPublicKey.mk 2]
      (Request.mk none none none none none none none none) none)[1]? =
      some (RPublicKey.mk 2,
        (fun (i : ℕ) (_ : RPublicKey) (_ : Request) (_ : ℕ) =>
          if i = 0 then Except.error (ErrorInfo.mk 5)
          else Except.ok Response.empty_success) 1 (RPublicKey.mk 2)
          (Request.mk none none none none none none none none)
          ((none : Option ℕ).getD 20)) :=
  (relay_broadcast_fanout
    (fun i _ _ _ => if i = 0 then Except.error (ErrorInfo.mk 5)
      else Except.ok Response.empty_success)
    [RPublicKey.mk 1, RPublicKey.mk 2]
    (Request.mk none none none none none none none none) none).2 1
    (RPublicKey.mk 2) (by decide)
